import Mathlib

/-!
# Shopee checkout client: path patcher, model resolver, checkout payloads

A shallow embedding of the Go package `shopee` (files `checkout.go`, `item.go`,
`shippinginfo.go`, `accountinfo.go`, `utils.go`).

Conventions of the embedding:

* A Go `interface{}` holding decoded JSON is a tree of type `Json`.  A Go
  `map[string]interface{}` is an association list (first binding of a key
  wins, an assignment overwrites the first binding or appends a new one); a Go
  `[]interface{}` is a list.  Maps and slices are reference values in Go, so a
  write through a nested container is visible from the root; on a tree this is
  the same as rebuilding the spine above the written slot.
* A Go run-time panic is `Except.error` with a `Panic` value.
* `int64` values are integers; `int64` addition wraps (`add64`).
* The jsoniter accessors (`Get(...).ToInt64()` and friends) are field
  projections; a record of the projected fields stands for the wrapped
  document.  `AddressInfo`, whose zero value `DeliveryAddress` returns, also
  has the nil document, on which the accessor panics.
-/

set_option autoImplicit false
set_option maxRecDepth 100000

namespace Shopee

/-! ## Dynamic values -/

/-- Modelled from the spec: the Go type `PaymentChannelData` is declared outside
the files at hand.  The spec describes it as a payment-channel descriptor that is
passed through to the payloads and never inspected; a descriptor string stands
for it. -/
structure PaymentChannelData where
  descriptor : String
  deriving DecidableEq, Repr

/-- Values a Go `interface{}` holds in the payload documents: the decoded JSON
kinds, plus the two non-JSON Go values that `PlaceOrder` stores (`[]int64` and
`PaymentChannelData`), which are leaves for `setJsonField`. -/
inductive Json where
  | null
  | bool (b : Bool)
  | num (n : Int)
  | str (s : String)
  | ints (xs : List Int)
  | payment (d : PaymentChannelData)
  | arr (elems : List Json)
  | obj (fields : List (String × Json))

/-- One element of a patch path: a `string` (map key) or an `int` (slice index). -/
inductive Accessor where
  | key (k : String)
  | idx (i : Int)
  deriving DecidableEq, Repr

/-- The ways `setJsonField` and the model accessors can panic. -/
inductive Panic where
  /-- Slicing `path[:len(path)-1]` on an empty path. -/
  | sliceBounds
  /-- The type assertions `accessor.(string)`, `accessor.(int)` failing. -/
  | typeAssertion
  /-- The index of a slice expression lying outside `0 ≤ i < len`. -/
  | indexOutOfRange
  /-- The explicit `panic("invalid accessor: ...")` of the traversal loop. -/
  | invalidAccessor
  /-- The explicit `panic` of `ChooseModelByTierVar` on a length mismatch. -/
  | lengthMismatch
  /-- A method call on a nil `jsoniter.Any` (nil pointer dereference). -/
  | nilDereference
  deriving DecidableEq, Repr

/-- Map read `m[k]`: the value bound to `k`, if any. -/
def lookup {α : Type} (k : String) : List (String × α) → Option α
  | [] => none
  | (k', v) :: rest => if k' = k then some v else lookup k rest

/-- Map write `m[k] = v`: overwrite the binding of `k`, or add one. -/
def assign {α : Type} (k : String) (v : α) : List (String × α) → List (String × α)
  | [] => [(k, v)]
  | (k', v') :: rest => if k' = k then (k, v) :: rest else (k', v') :: assign k v rest

/-- Slice read `xs[i]` with a Go `int` index: defined for `0 ≤ i < len(xs)`. -/
def index {α : Type} (xs : List α) (i : Int) : Option α :=
  if i < 0 then none else xs[i.toNat]?

/-- Go `setJsonField(json, path, v)` of `checkout.go`.

The Go loop walks `path[:len(path)-1]`, replacing `json` by the child the
accessor selects; the final `switch` stores `v` under the last accessor.  The
recursion follows the path, the first clause being the slice expression on an
empty path, the second the final `switch` (which has no `default`, so a node
that is neither map nor slice is left as it is), the third one iteration of
the loop.  A map read of an absent key gives the nil interface, with which the
walk goes on; nothing reachable from the document changes in that case. -/
def setJsonField : Json → List Accessor → Json → Except Panic Json
  | _, [], _ => .error .sliceBounds
  | json, [field], v =>
    match json, field with
    | .obj m, .key k => .ok (.obj (assign k v m))
    | .obj _, .idx _ => .error .typeAssertion
    | .arr xs, .idx i =>
      if 0 ≤ i ∧ i < xs.length then .ok (.arr (xs.set i.toNat v)) else .error .indexOutOfRange
    | .arr _, .key _ => .error .typeAssertion
    | other, _ => .ok other
  | json, accessor :: rest, v =>
    match json, accessor with
    | .obj m, .key k =>
      match lookup k m with
      | some child => (setJsonField child rest v).map (fun c => .obj (assign k c m))
      | none => (setJsonField .null rest v).map (fun _ => .obj m)
    | .obj _, .idx _ => .error .typeAssertion
    | .arr xs, .idx i =>
      match index xs i with
      | some child => (setJsonField child rest v).map (fun c => .arr (xs.set i.toNat c))
      | none => .error .indexOutOfRange
    | .arr _, .key _ => .error .typeAssertion
    | _, _ => .error .invalidAccessor


/-- The loop of `PlaceOrder`, `CheckoutGet` and `CheckoutGetQuick`:
`for _, field := range fields { setJsonField(data, field.p, field.v) }`. -/
def applyPatches : Json → List (List Accessor × Json) → Except Panic Json
  | data, [] => .ok data
  | data, (p, v) :: rest =>
    match setJsonField data p v with
    | .ok data' => applyPatches data' rest
    | .error e => .error e

/-! ## Observing a document -/

/-- The child an accessor selects: `m[k]` for a present key of a map, `xs[i]`
for an index in range of a slice. -/
def child : Json → Accessor → Option Json
  | .obj m, .key k => lookup k m
  | .arr xs, .idx i => index xs i
  | _, _ => none

/-- Reading a document at a path: follow the accessors from the root. -/
def readPath : Json → List Accessor → Option Json
  | json, [] => some json
  | json, a :: rest =>
    match child json a with
    | some c => readPath c rest
    | none => none

/-- An accessor names a slot of the node that can be stored to: any key of a
map, an index in range of a slice. -/
def writable : Json → Accessor → Bool
  | .obj _, .key _ => true
  | .arr xs, .idx i => decide (0 ≤ i ∧ i < xs.length)
  | _, _ => false

/-- A path fits the document: every accessor but the last selects an existing
child, and the last one names a slot of the node reached. -/
def validPath : Json → List Accessor → Bool
  | _, [] => false
  | json, [a] => writable json a
  | json, a :: rest =>
    match child json a with
    | some c => validPath c rest
    | none => false

/-- Two paths overlap when one is a prefix of the other (equal paths included). -/
def overlap : List Accessor → List Accessor → Bool
  | [], _ => true
  | _, [] => true
  | a :: p, b :: q => decide (a = b) && overlap p q

/-- The paths of a patch list are non-conflicting: no two patches overlap. -/
def nonConflicting (patches : List (List Accessor × Json)) : Prop :=
  patches.Pairwise (fun a b => overlap a.1 b.1 = false)

instance (patches : List (List Accessor × Json)) : Decidable (nonConflicting patches) := by
  unfold nonConflicting
  infer_instance

/-- The node with the slot an accessor names replaced. -/
def putChild : Json → Accessor → Json → Json
  | .obj m, .key k, c => .obj (assign k c m)
  | .arr xs, .idx i, c => .arr (xs.set i.toNat c)
  | json, _, _ => json

/-- What a read tells about the node it reaches, apart from the children: the
value of a leaf, the length of a slice, the fact of being a map. -/
inductive NodeKind where
  | null
  | bool (b : Bool)
  | num (n : Int)
  | str (s : String)
  | ints (xs : List Int)
  | payment (d : PaymentChannelData)
  | arr (len : Nat)
  | obj
  deriving DecidableEq, Repr

/-- The kind of the node at the root of a document. -/
def nodeKind : Json → NodeKind
  | .null => .null
  | .bool b => .bool b
  | .num n => .num n
  | .str s => .str s
  | .ints xs => .ints xs
  | .payment d => .payment d
  | .arr xs => .arr xs.length
  | .obj _ => .obj

/-- Two documents are the same Go value: no read tells them apart.  At every
path either both have no node, or both have a node of the same kind; so they
have the same keys in every map, the same length of every slice and the same
leaves.  (The order of the bindings of an association list, which a Go map
does not have, is not observed.) -/
def sameDocument (d₁ d₂ : Json) : Prop :=
  ∀ r : List Accessor, (readPath d₁ r).map nodeKind = (readPath d₂ r).map nodeKind


/-! ## `int64` arithmetic -/

/-- The value of an integer as an `int64`: two's complement wrap-around. -/
def wrap64 (x : Int) : Int := (x + 2 ^ 63) % 2 ^ 64 - 2 ^ 63

/-- Go `a + b` on `int64` operands. -/
def add64 (a b : Int) : Int := wrap64 (a + b)

/-- Go `max[T number](a, b T) T` of `utils.go`, at `T = int64`. -/
def max (a b : Int) : Int := if a > b then a else b

/-- Go `min[T number](a, b T) T` of `utils.go`, at `T = int64`. -/
def min (a b : Int) : Int := if a < b then a else b

/-! ## Catalog records (`item.go`) -/

/-- A `Model`: the values its accessors return. -/
structure Model where
  ItemID : Int
  Name : String
  Stock : Int
  ModelID : Int
  Price : Int
  deriving DecidableEq, Repr

/-- A `TierVar`: its name and its option labels, in order. -/
structure TierVar where
  Name : String
  Options : List String
  deriving DecidableEq, Repr

/-- An `Item`: the values of the accessors the checkout code uses. -/
structure Item where
  ShopID : Int
  ItemID : Int
  Name : String
  CatIDs : List Int
  TierVariations : List TierVar
  Models : List Model
  deriving DecidableEq, Repr

/-- A `CheckoutableItem`: an `Item` (embedded) and the index of the chosen model. -/
structure CheckoutableItem extends Item where
  chosenModel : Nat
  deriving DecidableEq, Repr

/-- The selection loop shared by both resolvers,
`var modelIndex int; for i, m := range models { if hit(m) { modelIndex = i; break } }`,
started at position `i`: the position of the first hit, and the zero value when
the loop runs to its end. -/
def scanModels (hit : Model → Bool) : List Model → Nat → Nat
  | [], _ => 0
  | m :: rest, i => if hit m then i else scanModels hit rest (i + 1)

/-- Go `ChooseModel(item, modelId)`: the first model with the requested id. -/
def ChooseModel (item : Item) (modelId : Int) : CheckoutableItem :=
  { toItem := item
    chosenModel := scanModels (fun m => decide (m.ModelID = modelId)) item.Models 0 }

/-- Go `strings.Join(elems, sep)` of the standard library. -/
def stringsJoin : List String → String → String
  | [], _ => ""
  | s :: rest, sep => rest.foldl (fun b t => b ++ sep ++ t) s

/-- The loop `for i, opt_i := range indexes { tvarsName[i] = tvars[i].Options()[opt_i] }`
from position `i` on: the labels stored, or the index panic of the first bad
subscript. -/
def tvarsNameFrom (tvars : List TierVar) : List Int → Nat → Except Panic (List String)
  | [], _ => .ok []
  | opt_i :: rest, i =>
    match tvars[i]? with
    | none => .error .indexOutOfRange
    | some t =>
      match index t.Options opt_i with
      | none => .error .indexOutOfRange
      | some label => (tvarsNameFrom tvars rest (i + 1)).map (fun names => label :: names)

/-- Go `ChooseModelByTierVar(item, indexes)`: the length check, the label loop,
the join and the selection loop. -/
def ChooseModelByTierVar (item : Item) (indexes : List Int) : Except Panic CheckoutableItem :=
  if indexes.length ≠ item.TierVariations.length then .error .lengthMismatch
  else
    match tvarsNameFrom item.TierVariations indexes 0 with
    | .error e => .error e
    | .ok tvarsName =>
      let modelName := stringsJoin tvarsName ","
      .ok { toItem := item
            chosenModel := scanModels (fun m => decide (m.Name = modelName)) item.Models 0 }

/-- Go `CheckoutableItem.ChosenModel()`: `c.Models()[c.chosenModel]`. -/
def CheckoutableItem.ChosenModel (c : CheckoutableItem) : Except Panic Model :=
  match c.Models[c.chosenModel]? with
  | some m => .ok m
  | none => .error .indexOutOfRange

/-! ## Shipping channels (`shippinginfo.go`) -/

/-- A `LogisticChannelInfo`: the values its numeric accessors return. -/
structure LogisticChannelInfo where
  ChannelID : Int
  MinPrice : Int
  MaxPrice : Int
  PriceBeforeDiscount : Int
  deriving DecidableEq, Repr

/-- Go `LogisticChannelInfo.PriceMax()`: `max(c.PriceBeforeDiscount(), c.MaxPrice())`. -/
def LogisticChannelInfo.PriceMax (c : LogisticChannelInfo) : Int :=
  max c.PriceBeforeDiscount c.MaxPrice

/-! ## Addresses (`accountinfo.go`) -/

/-- The document an `AddressInfo` wraps, as far as the checkout code reads it:
the value of `json.Get("id").ToInt64()`. -/
structure AddressDoc where
  id : Int
  deriving DecidableEq, Repr

/-- An `AddressInfo`: the wrapped document and the delivery flag.  The zero
value `AddressInfo{}` holds the nil `jsoniter.Any`, here `json := none`, and
has the flag unset. -/
structure AddressInfo where
  json : Option AddressDoc
  isDeliveryAddr : Bool
  deriving DecidableEq, Repr

/-- Go `AddressInfo.ID()`: `a.json.Get("id").ToInt64()`, a nil dereference on
the zero value. -/
def AddressInfo.ID (a : AddressInfo) : Except Panic Int :=
  match a.json with
  | some doc => .ok doc.id
  | none => .error .nilDereference

/-- Go `AddressInfo.IsDeliveryAddress()`. -/
def AddressInfo.IsDeliveryAddress (a : AddressInfo) : Bool := a.isDeliveryAddr

/-- Go `type Addresses []AddressInfo`. -/
abbrev Addresses := List AddressInfo

/-- The loop of `DeliveryAddress` from position `i` on. -/
def deliveryAddressFrom : List AddressInfo → Int → Int × AddressInfo
  | [], _ => (-1, { json := none, isDeliveryAddr := false })
  | addr :: rest, i => if addr.IsDeliveryAddress then (i, addr) else deliveryAddressFrom rest (i + 1)

/-- Go `Addresses.DeliveryAddress()`: index and record of the first flagged
address, index `-1` and the zero record when there is none. -/
def DeliveryAddress (a : Addresses) : Int × AddressInfo := deliveryAddressFrom a 0

/-! ## Checkout (`checkout.go`) -/

/-- Go `CheckoutParams`: the four exported fields and the unexported `ts`. -/
structure CheckoutParams where
  Addr : AddressInfo
  Item : CheckoutableItem
  PaymentData : PaymentChannelData
  Logistic : LogisticChannelInfo
  ts : Int
  deriving DecidableEq, Repr

/-- Go `CheckoutParams.WithTimestamp(ts)`. -/
def CheckoutParams.WithTimestamp (c : CheckoutParams) (ts : Int) : CheckoutParams :=
  { c with ts := ts }

/-- Go `error` values the checkout operations return. -/
inductive Error where
  /-- An `errors.New(msg)`. -/
  | new (msg : String)
  /-- The error of `jsoniter.Unmarshal` on a template. -/
  | unmarshal (msg : String)
  /-- The error of the HTTP client. -/
  | transport (msg : String)
  /-- A `PlaceOrderError` with its `Type()` and `Msg()`. -/
  | placeOrder (kind msg : String)
  deriving DecidableEq, Repr

/-- What `PlaceOrder` reads from a response body. -/
structure Response where
  error : String
  errorMsg : String
  deriving DecidableEq, Repr

/-- What the checkout operations take from outside the files at hand: the
embedded templates as `jsoniter.Unmarshal` decodes them into a
`map[string]interface{}`, the clock, and the HTTP client. -/
structure Client where
  /-- Decoded `porder.json`. -/
  porderPayload : Except String (List (String × Json))
  /-- Decoded `cget.json`. -/
  cgetPayload : Except String (List (String × Json))
  /-- The value of `time.Now().Unix()`. -/
  now : Int
  /-- Go `c.Client.R().SetBody(body).Post(url)` and the decoding of the response. -/
  Post : String → Json → Except String Response

/-- A run of an operation: the requests handed to the HTTP client, in order,
and the value returned, or the panic that ended the run. -/
structure Run (α : Type) where
  requests : List (String × Json)
  result : Except Panic α

/-- The paths `PlaceOrder` patches, in the order of its table. -/
def placeOrderPaths : List (List Accessor) :=
  [ [.key "timestamp"],
    [.key "selected_payment_channel_data"],
    [.key "shoporders", .idx 0, .key "shop", .key "shopid"],
    [.key "shoporders", .idx 0, .key "items", .idx 0, .key "itemid"],
    [.key "shoporders", .idx 0, .key "items", .idx 0, .key "modelid"],
    [.key "shoporders", .idx 0, .key "items", .idx 0, .key "shopid"],
    [.key "shoporders", .idx 0, .key "items", .idx 0, .key "price"],
    [.key "shoporders", .idx 0, .key "items", .idx 0, .key "name"],
    [.key "shoporders", .idx 0, .key "items", .idx 0, .key "model_name"],
    [.key "shoporders", .idx 0, .key "items", .idx 0, .key "categories", .idx 0, .key "catids"],
    [.key "shipping_orders", .idx 0, .key "selected_logistic_channelid"],
    [.key "shipping_orders", .idx 0, .key "buyer_address_data", .key "addressid"],
    [.key "checkout_price_data", .key "merchandise_subtotal"],
    [.key "checkout_price_data", .key "shipping_subtotal_before_discount"],
    [.key "checkout_price_data", .key "shipping_subtotal"],
    [.key "checkout_price_data", .key "total_payable"],
    [.key "shoporders", .idx 0, .key "order_total_without_shipping"],
    [.key "shoporders", .idx 0, .key "order_total"],
    [.key "shipping_orders", .idx 0, .key "order_total"],
    [.key "shipping_orders", .idx 0, .key "order_total_without_shipping"],
    [.key "shipping_orders", .idx 0, .key "shipping_fee"] ]

/-- The values `PlaceOrder` stores, in the order of its table, for the chosen
model `m` and the address id `addrId`. -/
def placeOrderValues (params : CheckoutParams) (m : Model) (addrId : Int) : List Json :=
  [ .num params.ts,
    .payment params.PaymentData,
    .num params.Item.ShopID,
    .num params.Item.ItemID,
    .num m.ModelID,
    .num params.Item.ShopID,
    .num m.Price,
    .str params.Item.Name,
    .str m.Name,
    .ints params.Item.CatIDs,
    .num params.Logistic.ChannelID,
    .num addrId,
    .num m.Price,
    .num params.Logistic.PriceMax,
    .num params.Logistic.PriceMax,
    .num (add64 (add64 m.Price params.Logistic.PriceMax) 250000000),
    .num m.Price,
    .num (add64 m.Price params.Logistic.PriceMax),
    .num (add64 m.Price params.Logistic.PriceMax),
    .num m.Price,
    .num params.Logistic.PriceMax ]

/-- The patch table of `PlaceOrder`.  Go evaluates the whole array literal,
row by row, before the loop starts, so an out-of-range `item.ChosenModel()`
(first met in the fifth row) or an `Addr.ID()` on a nil document (twelfth row)
panics before any patch is applied. -/
def placeOrderFields (params : CheckoutParams) : Except Panic (List (List Accessor × Json)) :=
  match params.Item.ChosenModel with
  | .error e => .error e
  | .ok m =>
    match params.Addr.ID with
    | .error e => .error e
    | .ok addrId => .ok (placeOrderPaths.zip (placeOrderValues params m addrId))

/-- Go `Client.PlaceOrder(params)`. -/
def PlaceOrder (c : Client) (params : CheckoutParams) : Run (Option Error) :=
  if params.ts = 0 then
    { requests := [], result := .ok (some (.new "no timestamp in params")) }
  else
    match c.porderPayload with
    | .error e => { requests := [], result := .ok (some (.unmarshal e)) }
    | .ok data =>
      match placeOrderFields params with
      | .error p => { requests := [], result := .error p }
      | .ok fields =>
        match applyPatches (.obj data) fields with
        | .error p => { requests := [], result := .error p }
        | .ok body =>
          match c.Post "/api/v4/checkout/place_order" body with
          | .error e =>
            { requests := [("/api/v4/checkout/place_order", body)],
              result := .ok (some (.transport e)) }
          | .ok resp =>
            if resp.error ≠ "" then
              { requests := [("/api/v4/checkout/place_order", body)],
                result := .ok (some (.placeOrder resp.error resp.errorMsg)) }
            else
              { requests := [("/api/v4/checkout/place_order", body)], result := .ok none }

/-- The patch table of `CheckoutGet`, with `ts` the clock reading.  As in
`PlaceOrder` the rows are evaluated before the loop: `item.ChosenModel()` in
the fourth row, `Addr.ID()` in the sixth. -/
def checkoutGetFields (params : CheckoutParams) (ts : Int) :
    Except Panic (List (List Accessor × Json)) :=
  match params.Item.ChosenModel with
  | .error e => .error e
  | .ok m =>
    match params.Addr.ID with
    | .error e => .error e
    | .ok addrId =>
      .ok [ ([.key "timestamp"], .num ts),
            ([.key "shoporders", .idx 0, .key "shop", .key "shopid"], .num params.Item.ShopID),
            ([.key "shoporders", .idx 0, .key "items", .idx 0, .key "itemid"],
              .num params.Item.ItemID),
            ([.key "shoporders", .idx 0, .key "items", .idx 0, .key "modelid"], .num m.ModelID),
            ([.key "selected_payment_channel_data"], .payment params.PaymentData),
            ([.key "shipping_orders", .idx 0, .key "buyer_address_data", .key "addressid"],
              .num addrId),
            ([.key "shipping_orders", .idx 0, .key "selected_logistic_channelid"],
              .num params.Logistic.ChannelID) ]

/-- Go `Client.CheckoutGet(params)`: the value pair `(CheckoutParams, error)` is an
`Except Error CheckoutParams`, the first component being the zero value
whenever the error is set. -/
def CheckoutGet (c : Client) (params : CheckoutParams) : Run (Except Error CheckoutParams) :=
  match c.cgetPayload with
  | .error e => { requests := [], result := .ok (.error (.unmarshal e)) }
  | .ok data =>
    match checkoutGetFields params c.now with
    | .error p => { requests := [], result := .error p }
    | .ok fields =>
      match applyPatches (.obj data) fields with
      | .error p => { requests := [], result := .error p }
      | .ok body =>
        match c.Post "/api/v4/checkout/get" body with
        | .error e =>
          { requests := [("/api/v4/checkout/get", body)], result := .ok (.error (.transport e)) }
        | .ok _ =>
          { requests := [("/api/v4/checkout/get", body)],
            result := .ok (.ok (params.WithTimestamp c.now)) }


/-! ## Sample data -/

/-- A place-order template that has every container the patch table walks
through. -/
def sampleOrderTemplate : List (String × Json) :=
  [ ("timestamp", .num 0),
    ("shoporders",
      .arr [.obj [("shop", .obj [("shopid", .null)]),
                  ("items", .arr [.obj [("itemid", .null),
                                        ("categories", .arr [.obj [("catids", .null)]])]])]]),
    ("shipping_orders", .arr [.obj [("buyer_address_data", .obj [("addressid", .null)])]]),
    ("checkout_price_data", .obj [("total_payable", .null)]) ]

/-- A client whose templates decode, whose clock reads `1650000000`, and whose
requests are answered without an error. -/
def sampleClient : Client :=
  { porderPayload := .ok sampleOrderTemplate
    cgetPayload := .ok sampleOrderTemplate
    now := 1650000000
    Post := fun _ _ => .ok { error := "", errorMsg := "" } }

/-- An item with one model of the given price. -/
def sampleItem (price : Int) : Item :=
  { ShopID := 11, ItemID := 22, Name := "lamp", CatIDs := [5, 6], TierVariations := [],
    Models := [{ ItemID := 22, Name := "", Stock := 3, ModelID := 33, Price := price }] }

/-- Checkout parameters for `sampleItem price` with a channel whose effective
price is `shipping`, carrying the timestamp `ts`. -/
def sampleParams (price shipping ts : Int) : CheckoutParams :=
  { Addr := { json := some { id := 44 }, isDeliveryAddr := true }
    Item := ChooseModel (sampleItem price) 33
    PaymentData := { descriptor := "bank" }
    Logistic := { ChannelID := 55, MinPrice := 0, MaxPrice := shipping, PriceBeforeDiscount := 0 }
    ts := ts }

/-- An item whose models carry the ids `1`, `2`, `3` and nothing else of note. -/
def sampleIdItem : Item :=
  { ShopID := 11, ItemID := 22, Name := "lamp", CatIDs := [], TierVariations := [],
    Models := [ { ItemID := 22, Name := "a", Stock := 1, ModelID := 1, Price := 10 },
                { ItemID := 22, Name := "b", Stock := 1, ModelID := 2, Price := 20 },
                { ItemID := 22, Name := "c", Stock := 1, ModelID := 3, Price := 30 } ] }

/-- An item with the axes `Color = [Red, Blue]`, `Size = [S, M]` and one model
for each combination. -/
def sampleAxisItem : Item :=
  { ShopID := 11, ItemID := 22, Name := "shirt", CatIDs := [],
    TierVariations := [ { Name := "Color", Options := ["Red", "Blue"] },
                        { Name := "Size", Options := ["S", "M"] } ],
    Models := [ { ItemID := 22, Name := "Red,S", Stock := 1, ModelID := 1, Price := 10 },
                { ItemID := 22, Name := "Red,M", Stock := 1, ModelID := 2, Price := 10 },
                { ItemID := 22, Name := "Blue,S", Stock := 1, ModelID := 3, Price := 10 },
                { ItemID := 22, Name := "Blue,M", Stock := 1, ModelID := 4, Price := 10 } ] }

/-- An item whose document lists no models. -/
def sampleBareItem : Item :=
  { ShopID := 11, ItemID := 22, Name := "ghost", CatIDs := [], TierVariations := [],
    Models := [] }

/-- Three addresses, the second of which is the delivery address. -/
def sampleAddresses : Addresses :=
  [ { json := some { id := 7 }, isDeliveryAddr := false },
    { json := some { id := 8 }, isDeliveryAddr := true },
    { json := some { id := 9 }, isDeliveryAddr := false } ]

/-! ## Association lists and slices -/

theorem lookup_assign_same {α : Type} (k : String) (v : α) (m : List (String × α)) :
    lookup k (assign k v m) = some v := by
  induction m with
  | nil => simp [assign, lookup]
  | cons kv rest ih =>
    obtain ⟨k', v'⟩ := kv
    by_cases h : k' = k <;> simp [assign, lookup, h, ih]

theorem lookup_assign_ne {α : Type} (k k' : String) (v : α) (m : List (String × α))
    (h : k' ≠ k) : lookup k' (assign k v m) = lookup k' m := by
  induction m with
  | nil => simp [assign, lookup, Ne.symm h]
  | cons kv rest ih =>
    obtain ⟨k₀, v₀⟩ := kv
    by_cases h₀ : k₀ = k
    · subst h₀
      simp [assign, lookup, Ne.symm h]
    · by_cases h₁ : k₀ = k'
      · subst h₁
        simp [assign, lookup, h₀]
      · simp [assign, lookup, h₀, h₁, ih]

theorem assign_assign {α : Type} (k : String) (v w : α) (m : List (String × α)) :
    assign k w (assign k v m) = assign k w m := by
  induction m with
  | nil => simp [assign]
  | cons kv rest ih =>
    obtain ⟨k₀, v₀⟩ := kv
    by_cases h₀ : k₀ = k <;> simp [assign, h₀, ih]

theorem index_isSome_iff {α : Type} (xs : List α) (i : Int) :
    (index xs i).isSome = true ↔ 0 ≤ i ∧ i < xs.length := by
  unfold index
  by_cases h : i < 0
  · simp [h]
  · simp only [h, if_false]
    rw [← Option.ne_none_iff_isSome, Ne, List.getElem?_eq_none_iff]
    omega

theorem index_set_same {α : Type} (xs : List α) (i : Int) (v : α)
    (h : 0 ≤ i ∧ i < xs.length) : index (xs.set i.toNat v) i = some v := by
  unfold index
  have h1 : ¬ i < 0 := by omega
  have h2 : i.toNat < xs.length := by omega
  simp [h1, h2]

theorem index_set_ne {α : Type} (xs : List α) (i j : Int) (v : α)
    (hi : 0 ≤ i) (hne : j ≠ i) : index (xs.set i.toNat v) j = index xs j := by
  unfold index
  by_cases hj : j < 0
  · simp [hj]
  · have : i.toNat ≠ j.toNat := by omega
    simp [hj, List.getElem?_set_ne this]

/-! ## One step of `setJsonField` -/

theorem writable_of_child {d : Json} {a : Accessor} {c : Json} (h : child d a = some c) :
    writable d a = true := by
  cases d <;> cases a <;> simp [child, writable] at h ⊢
  exact (index_isSome_iff _ _).mp (by simp [h])

theorem child_putChild (d : Json) (a b : Accessor) (c : Json) (hw : writable d a = true) :
    child (putChild d a c) b = if b = a then some c else child d b := by
  cases d <;> cases a <;> simp [writable] at hw
  · rename_i xs i
    cases b with
    | key k => simp [putChild, child]
    | idx j =>
      by_cases hji : j = i
      · subst hji
        simp [putChild, child, index_set_same _ _ _ hw]
      · simp [putChild, child, hji, index_set_ne _ _ _ _ hw.1 hji]
  · rename_i m k
    cases b with
    | idx j => simp [putChild, child]
    | key k' =>
      by_cases hk : k' = k
      · subst hk
        simp [putChild, child, lookup_assign_same]
      · simp [putChild, child, hk, lookup_assign_ne _ _ _ _ hk]

theorem writable_putChild (d : Json) (a b : Accessor) (c : Json) :
    writable (putChild d a c) b = writable d b := by
  cases d <;> cases a <;> cases b <;> simp [putChild, writable]

theorem putChild_putChild (d : Json) (a : Accessor) (c c' : Json) :
    putChild (putChild d a c) a c' = putChild d a c' := by
  cases d <;> cases a <;> simp [putChild, assign_assign]

theorem set_last_of_writable {d : Json} {a : Accessor} (v : Json) (h : writable d a = true) :
    setJsonField d [a] v = .ok (putChild d a v) := by
  cases d <;> cases a <;> simp [writable] at h <;> simp [setJsonField, putChild, h]

theorem set_last_ok {d d' : Json} {a : Accessor} {v : Json}
    (h : setJsonField d [a] v = .ok d') :
    (writable d a = true ∧ d' = putChild d a v) ∨ d' = d := by
  cases d <;> cases a <;> simp [setJsonField] at h <;>
    first
      | exact Or.inr h.symm
      | skip
  · rename_i xs i
    left
    by_cases hr : 0 ≤ i ∧ i < xs.length
    · rw [if_pos hr] at h
      exact ⟨by simpa [writable] using hr, by cases h; rfl⟩
    · rw [if_neg hr] at h
      cases h
  · left
    exact ⟨by simp [writable], by simp [putChild, ← h]⟩

theorem set_cons_of_child {d c : Json} {a : Accessor} (b : Accessor) (rest : List Accessor)
    (v : Json) (h : child d a = some c) :
    setJsonField d (a :: b :: rest) v = (setJsonField c (b :: rest) v).map (putChild d a) := by
  cases d <;> cases a <;> simp [child] at h <;> simp [setJsonField, h] <;> rfl

theorem set_cons_ok {d d' : Json} {a b : Accessor} {rest : List Accessor} {v : Json}
    (h : setJsonField d (a :: b :: rest) v = .ok d') :
    (∃ c c', child d a = some c ∧ setJsonField c (b :: rest) v = .ok c' ∧ d' = putChild d a c')
      ∨ d' = d := by
  cases hc : child d a with
  | some c =>
    rw [set_cons_of_child b rest v hc] at h
    cases hs : setJsonField c (b :: rest) v with
    | error e => simp [hs, Except.map] at h
    | ok c' =>
      simp [hs, Except.map] at h
      exact Or.inl ⟨c, c', rfl, hs, h.symm⟩
  | none =>
    right
    cases d <;> cases a <;> simp [child] at hc <;> simp [setJsonField] at h
    · rename_i xs i
      simp [hc] at h
    · rename_i m k
      simp [hc] at h
      cases hs : setJsonField .null (b :: rest) v with
      | error e => simp [hs, Except.map] at h
      | ok c' =>
        simp [hs, Except.map] at h
        exact h.symm

/-! ## Writing, then reading -/

theorem validPath_single (d : Json) (a : Accessor) : validPath d [a] = writable d a := by
  simp [validPath]

theorem validPath_cons (d : Json) (a b : Accessor) (rest : List Accessor) :
    validPath d (a :: b :: rest) =
      match child d a with
      | some c => validPath c (b :: rest)
      | none => false := by
  simp [validPath]

theorem readPath_cons (d : Json) (a : Accessor) (rest : List Accessor) :
    readPath d (a :: rest) =
      match child d a with
      | some c => readPath c rest
      | none => none := by
  simp [readPath]

/-- A write along a path that fits the document succeeds, and the document then
holds the written value at that path. -/
theorem set_read {d : Json} {p : List Accessor} (v : Json) (h : validPath d p = true) :
    ∃ d', setJsonField d p v = .ok d' ∧ readPath d' p = some v := by
  induction p generalizing d with
  | nil => simp [validPath] at h
  | cons a rest ih =>
    cases rest with
    | nil =>
      rw [validPath_single] at h
      refine ⟨putChild d a v, set_last_of_writable v h, ?_⟩
      simp [readPath, child_putChild _ _ _ _ h]
    | cons b rest =>
      rw [validPath_cons] at h
      cases hc : child d a with
      | none => simp [hc] at h
      | some c =>
        simp only [hc] at h
        obtain ⟨c', hset, hread⟩ := ih h
        refine ⟨putChild d a c', ?_, ?_⟩
        · rw [set_cons_of_child b rest v hc, hset]
          rfl
        · rw [readPath_cons, child_putChild _ _ _ _ (writable_of_child hc)]
          simpa using hread

/-- A write leaves every path that does not overlap the written one reading as
before. -/
theorem set_frame_read {d d' : Json} {p q : List Accessor} {v : Json}
    (h : setJsonField d p v = .ok d') (hq : overlap p q = false) :
    readPath d' q = readPath d q := by
  induction p generalizing d d' q with
  | nil => simp [overlap] at hq
  | cons a rest ih =>
    cases q with
    | nil => simp [overlap] at hq
    | cons b r =>
      cases rest with
      | nil =>
        have hne : b ≠ a := by
          intro hba
          simp [overlap, hba] at hq
        rcases set_last_ok h with ⟨hw, rfl⟩ | rfl
        · simp [readPath, child_putChild _ _ _ _ hw, hne]
        · rfl
      | cons a₂ rest =>
        rcases set_cons_ok h with ⟨c, c', hc, hset, rfl⟩ | rfl
        · rw [readPath_cons, readPath_cons, child_putChild _ _ _ _ (writable_of_child hc)]
          by_cases hba : b = a
          · subst hba
            have hq' : overlap (a₂ :: rest) r = false := by simpa [overlap] using hq
            simp [hc, ih hset hq']
          · simp [hba]
        · rfl

/-- A write leaves the fit of every non-overlapping path unchanged. -/
theorem set_frame_valid {d d' : Json} {p q : List Accessor} {v : Json}
    (h : setJsonField d p v = .ok d') (hq : overlap p q = false) :
    validPath d' q = validPath d q := by
  induction p generalizing d d' q with
  | nil => simp [overlap] at hq
  | cons a rest ih =>
    cases q with
    | nil => simp [overlap] at hq
    | cons b r =>
      cases rest with
      | nil =>
        have hne : b ≠ a := by
          intro hba
          simp [overlap, hba] at hq
        rcases set_last_ok h with ⟨hw, rfl⟩ | rfl
        · cases r with
          | nil => simp [validPath_single, writable_putChild]
          | cons b₂ r => simp [validPath_cons, child_putChild _ _ _ _ hw, hne]
        · rfl
      | cons a₂ rest =>
        rcases set_cons_ok h with ⟨c, c', hc, hset, rfl⟩ | rfl
        · cases r with
          | nil => simp [validPath_single, writable_putChild]
          | cons b₂ r =>
            rw [validPath_cons, validPath_cons, child_putChild _ _ _ _ (writable_of_child hc)]
            by_cases hba : b = a
            · subst hba
              have hq' : overlap (a₂ :: rest) (b₂ :: r) = false := by simpa [overlap] using hq
              simp [hc, ih hset hq']
            · simp [hba]
        · rfl

/-- Writing twice along the same path is writing the second value once; this
holds for the panics as well. -/
theorem set_set (d : Json) (p : List Accessor) (v₁ v₂ : Json) :
    (setJsonField d p v₁ >>= fun d₁ => setJsonField d₁ p v₂) = setJsonField d p v₂ := by
  induction p generalizing d with
  | nil => simp [setJsonField]; rfl
  | cons a rest ih =>
    cases rest with
    | nil =>
      cases d <;> cases a <;> simp [setJsonField, bind, Except.bind, assign_assign]
      rename_i xs i
      by_cases hr : 0 ≤ i ∧ i < xs.length
      · simp [hr, setJsonField]
      · simp [hr]
    | cons b rest =>
      cases hc : child d a with
      | some c =>
        have hw := writable_of_child hc
        rw [set_cons_of_child b rest _ hc, set_cons_of_child b rest _ hc]
        have ih' := ih c
        cases hs : setJsonField c (b :: rest) v₁ with
        | error e =>
          rw [hs] at ih'
          simp only [bind, Except.bind] at ih'
          simp [← ih', Except.map, bind, Except.bind]
        | ok c₁ =>
          rw [hs] at ih'
          simp only [bind, Except.bind] at ih'
          have hc₁ : child (putChild d a c₁) a = some c₁ := by
            simp [child_putChild _ _ _ _ hw]
          simp only [Except.map, bind, Except.bind]
          rw [set_cons_of_child b rest _ hc₁, ih']
          cases setJsonField c (b :: rest) v₂ <;> simp [Except.map, putChild_putChild]
      | none =>
        cases d <;> cases a <;> simp [child] at hc <;>
          simp [setJsonField, bind, Except.bind, hc]
        rename_i m k
        have ih' := ih .null
        cases hs : setJsonField .null (b :: rest) v₁ with
        | error e =>
          rw [hs] at ih'
          simp only [bind, Except.bind] at ih'
          simp [← ih', Except.map]
        | ok c₁ =>
          simp [Except.map, setJsonField, hc]

/-! ## Patch lists -/

theorem overlap_comm (p q : List Accessor) : overlap p q = overlap q p := by
  induction p generalizing q with
  | nil => cases q <;> simp [overlap]
  | cons a p ih =>
    cases q with
    | nil => simp [overlap]
    | cons b q =>
      simp only [overlap, ih q]
      by_cases h : a = b
      · simp [h]
      · simp [h, Ne.symm h]

/-- The recursive test `overlap` is the prefix relation in either direction. -/
theorem overlap_iff_comparable (p q : List Accessor) :
    overlap p q = true ↔ p <+: q ∨ q <+: p := by
  induction p generalizing q with
  | nil => simp [overlap]
  | cons a p ih =>
    cases q with
    | nil => simp [overlap]
    | cons b q =>
      simp only [overlap, Bool.and_eq_true, decide_eq_true_eq, ih q, List.cons_prefix_cons]
      constructor
      · rintro ⟨rfl, h | h⟩
        · exact Or.inl ⟨rfl, h⟩
        · exact Or.inr ⟨rfl, h⟩
      · rintro (⟨rfl, h⟩ | ⟨rfl, h⟩)
        · exact ⟨rfl, Or.inl h⟩
        · exact ⟨rfl, Or.inr h⟩

theorem applyPatches_cons_ok {d d₁ : Json} {p : List Accessor} {v : Json}
    (rest : List (List Accessor × Json)) (h : setJsonField d p v = .ok d₁) :
    applyPatches d ((p, v) :: rest) = applyPatches d₁ rest := by
  simp [applyPatches, h]

/-- A run of patches leaves every path that overlaps none of them reading as
before. -/
theorem applyPatches_frame_read {d d' : Json} {patches : List (List Accessor × Json)}
    {q : List Accessor} (h : applyPatches d patches = .ok d')
    (hq : ∀ pv ∈ patches, overlap pv.1 q = false) : readPath d' q = readPath d q := by
  induction patches generalizing d with
  | nil =>
    simp [applyPatches] at h
    rw [h]
  | cons pv rest ih =>
    obtain ⟨p, v⟩ := pv
    cases hs : setJsonField d p v with
    | error e => simp [applyPatches, hs] at h
    | ok d₁ =>
      rw [applyPatches_cons_ok rest hs] at h
      rw [ih h (fun pv hpv => hq pv (List.mem_cons_of_mem _ hpv))]
      exact set_frame_read hs (hq (p, v) (List.mem_cons_self _ _))

/-- Patches with non-conflicting paths that fit the document all succeed, and
the patched document holds each supplied value at its path. -/
theorem applyPatches_read {d : Json} {patches : List (List Accessor × Json)}
    (hnc : nonConflicting patches) (hv : ∀ pv ∈ patches, validPath d pv.1 = true) :
    ∃ d', applyPatches d patches = .ok d' ∧ ∀ pv ∈ patches, readPath d' pv.1 = some pv.2 := by
  induction patches generalizing d with
  | nil => exact ⟨d, rfl, by simp⟩
  | cons pv rest ih =>
    obtain ⟨p, v⟩ := pv
    have hnc' := List.pairwise_cons.mp hnc
    obtain ⟨d₁, hset, hread⟩ := set_read v (hv (p, v) (List.mem_cons_self _ _))
    have hv₁ : ∀ pv ∈ rest, validPath d₁ pv.1 = true := by
      intro pv hpv
      rw [set_frame_valid hset (hnc'.1 pv hpv)]
      exact hv pv (List.mem_cons_of_mem _ hpv)
    obtain ⟨d', happ, hall⟩ := ih hnc'.2 hv₁
    refine ⟨d', by rw [applyPatches_cons_ok rest hset]; exact happ, ?_⟩
    intro pv hpv
    rcases List.mem_cons.mp hpv with rfl | hmem
    · have hfr : ∀ qv ∈ rest, overlap qv.1 p = false := by
        intro qv hqv
        rw [overlap_comm]
        exact hnc'.1 qv hqv
      rw [applyPatches_frame_read happ hfr]
      exact hread
    · exact hall pv hmem

/-! ## The path patcher: claims -/

/-- C1 (as amended).  Patch round-trip: for every document and every patch list
whose paths are non-conflicting and fit the document, applying `setJsonField`
for every patch in list order succeeds, and reading the patched document at
each patched path yields exactly the value supplied for that path. -/
theorem patch_roundtrip (doc : Json) (patches : List (List Accessor × Json))
    (hnc : nonConflicting patches) (hfit : ∀ pv ∈ patches, validPath doc pv.1 = true) :
    ∃ doc', applyPatches doc patches = .ok doc' ∧
      ∀ pv ∈ patches, readPath doc' pv.1 = some pv.2 :=
  applyPatches_read hnc hfit

/-- Witness of `patch_roundtrip`: two patches on a two-level document. -/
theorem patch_roundtrip_witness :
    nonConflicting
      [([.key "timestamp"], .num 7),
       ([.key "shoporders", .idx 0, .key "shop", .key "shopid"], .num 42)] ∧
    (∀ pv ∈ [(([.key "timestamp"] : List Accessor), Json.num 7),
             ([.key "shoporders", .idx 0, .key "shop", .key "shopid"], .num 42)],
      validPath (.obj [("timestamp", .null), ("shoporders", .arr [.obj [("shop", .obj [])]])])
        pv.1 = true) ∧
    ∃ doc', applyPatches
        (.obj [("timestamp", .null), ("shoporders", .arr [.obj [("shop", .obj [])]])])
        [([.key "timestamp"], .num 7),
         ([.key "shoporders", .idx 0, .key "shop", .key "shopid"], .num 42)] = .ok doc' ∧
      ∀ pv ∈ [(([.key "timestamp"] : List Accessor), Json.num 7),
              ([.key "shoporders", .idx 0, .key "shop", .key "shopid"], .num 42)],
        readPath doc' pv.1 = some pv.2 :=
  ⟨by decide, by decide, patch_roundtrip _ _ (by decide) (by decide)⟩

/-- C1 as stated fails.  With the single patch `(["a","b","c"], 5)` on the
document `{"a": 1}` the walk reaches the number `1` with an accessor left and
`setJsonField` panics, so no patched document exists; with the single patch
`(["a","b"], 5)` on the same document the call returns, having stored nothing,
and reading `["a","b"]` does not yield `5`.  Both patch lists are
non-conflicting. -/
theorem patch_roundtrip_counterexample :
    (nonConflicting [([.key "a", .key "b", .key "c"], .num 5)] ∧
      applyPatches (.obj [("a", .num 1)]) [([.key "a", .key "b", .key "c"], .num 5)]
        = .error .invalidAccessor) ∧
    (nonConflicting [([.key "a", .key "b"], .num 5)] ∧
      applyPatches (.obj [("a", .num 1)]) [([.key "a", .key "b"], .num 5)]
        = .ok (.obj [("a", .num 1)]) ∧
      readPath (.obj [("a", .num 1)]) [.key "a", .key "b"] = none) :=
  ⟨⟨by decide, rfl⟩, by decide, rfl, rfl⟩

/-- C2 (as amended).  Last-write-wins: for every document, every path that fits
the document and every pair of values `v₁`, `v₂`, applying the patch
`(path, v₁)` and then `(path, v₂)` succeeds and leaves the document holding
`v₂` at that path, and the resulting document is the one that applying only
`(path, v₂)` gives. -/
theorem last_write_wins (doc : Json) (path : List Accessor) (v₁ v₂ : Json)
    (hfit : validPath doc path = true) :
    ∃ doc', applyPatches doc [(path, v₁), (path, v₂)] = .ok doc' ∧
      readPath doc' path = some v₂ ∧
      applyPatches doc [(path, v₂)] = .ok doc' := by
  obtain ⟨d₂, hset₂, hread₂⟩ := set_read v₂ hfit
  obtain ⟨d₁, hset₁, -⟩ := set_read v₁ hfit
  have hss := set_set doc path v₁ v₂
  rw [hset₁, hset₂] at hss
  simp only [bind, Except.bind] at hss
  refine ⟨d₂, ?_, hread₂, ?_⟩
  · simp [applyPatches, hset₁, hss]
  · simp [applyPatches, hset₂]

/-- Witness of `last_write_wins`: a placeholder `null` overwritten twice. -/
theorem last_write_wins_witness :
    validPath (.obj [("shoporders", .arr [.obj [("order_total", .null)]])])
      [.key "shoporders", .idx 0, .key "order_total"] = true ∧
    ∃ doc', applyPatches (.obj [("shoporders", .arr [.obj [("order_total", .null)]])])
        [([.key "shoporders", .idx 0, .key "order_total"], .num 1),
         ([.key "shoporders", .idx 0, .key "order_total"], .num 2)] = .ok doc' ∧
      readPath doc' [.key "shoporders", .idx 0, .key "order_total"] = some (.num 2) ∧
      applyPatches (.obj [("shoporders", .arr [.obj [("order_total", .null)]])])
        [([.key "shoporders", .idx 0, .key "order_total"], .num 2)] = .ok doc' :=
  ⟨by decide, last_write_wins _ _ _ _ (by decide)⟩

/-- C2 as stated fails.  On the document `{"a": []}` the path `["a", 0]` has
its index out of range and the first of the two writes panics, so no document
holds `2` there; on `{"a": 1}` the two writes along `["a","b"]` return, having
stored nothing, and the document holds nothing at that path. -/
theorem last_write_wins_counterexample :
    applyPatches (.obj [("a", .arr [])])
        [([.key "a", .idx 0], .num 1), ([.key "a", .idx 0], .num 2)]
      = .error .indexOutOfRange ∧
    (applyPatches (.obj [("a", .num 1)])
        [([.key "a", .key "b"], .num 1), ([.key "a", .key "b"], .num 2)]
      = .ok (.obj [("a", .num 1)]) ∧
      readPath (.obj [("a", .num 1)]) [.key "a", .key "b"] = none) :=
  ⟨rfl, rfl, rfl⟩

/-- C8 at its failing input.  On the document `{"a": 1}` the final accessor of
the path `["a","b"]` is a string while the node reached is the number `1`, not
a mapping; `setJsonField` returns normally and leaves the document as it was.
The same holds for a final integer accessor on a node that is not a sequence,
while the same mismatch one step earlier in the path does panic. -/
theorem setJsonField_final_mismatch_returns :
    setJsonField (.obj [("a", .num 1)]) [.key "a", .key "b"] (.num 5)
      = .ok (.obj [("a", .num 1)]) ∧
    setJsonField (.obj [("a", .num 1)]) [.key "a", .idx 0] (.num 5)
      = .ok (.obj [("a", .num 1)]) ∧
    setJsonField (.obj [("a", .num 1)]) [.key "a", .key "b", .key "c"] (.num 5)
      = .error .invalidAccessor :=
  ⟨rfl, rfl, rfl⟩

/-! ## Place-order payload -/

theorem nonConflicting_zip (paths : List (List Accessor)) (values : List Json)
    (h : paths.Pairwise (fun p q => overlap p q = false)) :
    nonConflicting (paths.zip values) := by
  unfold nonConflicting
  induction paths generalizing values with
  | nil => simp
  | cons p rest ih =>
    cases values with
    | nil => simp
    | cons v vs =>
      rw [List.zip_cons_cons, List.pairwise_cons]
      have h' := List.pairwise_cons.mp h
      refine ⟨?_, ih vs h'.2⟩
      intro qv hqv
      exact h'.1 qv.1 (List.of_mem_zip hqv).1

theorem placeOrderPaths_pairwise :
    placeOrderPaths.Pairwise (fun p q => overlap p q = false) := by
  decide

theorem placeOrderFields_nonConflicting (params : CheckoutParams) (m : Model) (addrId : Int) :
    nonConflicting (placeOrderPaths.zip (placeOrderValues params m addrId)) :=
  nonConflicting_zip _ _ placeOrderPaths_pairwise

/-- On a template that has the patched paths, with a chosen model in range, an
address that wraps a document and a timestamp set, `PlaceOrder` sends exactly
one request, and its body holds every value of the patch table at the path of
that value. -/
theorem placeOrder_body {c : Client} {params : CheckoutParams} {data : List (String × Json)}
    {m : Model} {addrId : Int} (hts : params.ts ≠ 0) (htmpl : c.porderPayload = .ok data)
    (hfit : ∀ p ∈ placeOrderPaths, validPath (.obj data) p = true)
    (hm : params.Item.ChosenModel = .ok m) (haddr : params.Addr.ID = .ok addrId) :
    ∃ body, (PlaceOrder c params).requests = [("/api/v4/checkout/place_order", body)] ∧
      ∀ pv ∈ placeOrderPaths.zip (placeOrderValues params m addrId),
        readPath body pv.1 = some pv.2 := by
  have hfit' : ∀ pv ∈ placeOrderPaths.zip (placeOrderValues params m addrId),
      validPath (.obj data) pv.1 = true :=
    fun pv hpv => hfit pv.1 (List.of_mem_zip hpv).1
  obtain ⟨body, happ, hread⟩ :=
    applyPatches_read (placeOrderFields_nonConflicting params m addrId) hfit'
  refine ⟨body, ?_, hread⟩
  unfold PlaceOrder
  rw [if_neg hts]
  simp only [htmpl, placeOrderFields, hm, haddr, happ]
  cases c.Post "/api/v4/checkout/place_order" body with
  | error e => rfl
  | ok resp =>
    by_cases he : resp.error ≠ ""
    · simp [he]
    · simp [he]

theorem placeOrderPaths_tail_timestamp :
    ∀ p ∈ placeOrderPaths.tail, overlap p [.key "timestamp"] = false := by
  decide

/-- Once the patch table has been applied to a decoded template, the document
holds the session timestamp at the top-level key `timestamp`. -/
theorem placeOrder_timestamp_of_applied {data : List (String × Json)} {params : CheckoutParams}
    {m : Model} {addrId : Int} {body : Json}
    (h : applyPatches (.obj data) (placeOrderPaths.zip (placeOrderValues params m addrId))
      = .ok body) :
    readPath body [.key "timestamp"] = some (.num params.ts) := by
  have hcons : placeOrderPaths.zip (placeOrderValues params m addrId) =
      ([.key "timestamp"], .num params.ts) ::
        placeOrderPaths.tail.zip (placeOrderValues params m addrId).tail := rfl
  have hset : setJsonField (.obj data) [.key "timestamp"] (.num params.ts) =
      .ok (.obj (assign "timestamp" (.num params.ts) data)) := by
    simp [setJsonField]
  rw [hcons, applyPatches_cons_ok _ hset] at h
  rw [applyPatches_frame_read h
    (fun pv hpv => placeOrderPaths_tail_timestamp pv.1 (List.of_mem_zip hpv).1)]
  simp [readPath, child, lookup_assign_same]

/-- Every request `PlaceOrder` sends goes to the place-order endpoint and
carries the session timestamp, whatever the template. -/
theorem placeOrder_requests_timestamp (c : Client) (params : CheckoutParams) :
    ∀ req ∈ (PlaceOrder c params).requests,
      req.1 = "/api/v4/checkout/place_order" ∧
        readPath req.2 [.key "timestamp"] = some (.num params.ts) := by
  intro req hreq
  unfold PlaceOrder at hreq
  by_cases hts : params.ts = 0
  · simp [hts] at hreq
  · rw [if_neg hts] at hreq
    cases hd : c.porderPayload with
    | error e => simp [hd] at hreq
    | ok data =>
      cases hm : params.Item.ChosenModel with
      | error e => simp [hd, placeOrderFields, hm] at hreq
      | ok m =>
        cases ha : params.Addr.ID with
        | error e => simp [hd, placeOrderFields, hm, ha] at hreq
        | ok addrId =>
          simp only [hd, placeOrderFields, hm, ha] at hreq
          cases happ : applyPatches (.obj data)
              (placeOrderPaths.zip (placeOrderValues params m addrId)) with
          | error e => simp [happ] at hreq
          | ok body =>
            have hbody := placeOrder_timestamp_of_applied happ
            simp only [happ] at hreq
            cases hp : c.Post "/api/v4/checkout/place_order" body with
            | error e =>
              simp only [hp, List.mem_singleton] at hreq
              subst hreq
              exact ⟨rfl, hbody⟩
            | ok resp =>
              simp only [hp] at hreq
              by_cases he : resp.error ≠ ""
              · rw [if_pos he, List.mem_singleton] at hreq
                subst hreq
                exact ⟨rfl, hbody⟩
              · rw [if_neg he, List.mem_singleton] at hreq
                subst hreq
                exact ⟨rfl, hbody⟩

/-- A successful `CheckoutGet` returns its argument with the clock reading as
timestamp, and it has evaluated `item.ChosenModel()` and `Addr.ID()` without
a panic. -/
theorem checkoutGet_ok {c : Client} {p₀ params : CheckoutParams}
    (h : (CheckoutGet c p₀).result = .ok (.ok params)) :
    params = p₀.WithTimestamp c.now ∧ (∃ m, p₀.Item.ChosenModel = .ok m) ∧
      ∃ addrId, p₀.Addr.ID = .ok addrId := by
  unfold CheckoutGet at h
  cases hd : c.cgetPayload with
  | error e => simp [hd] at h
  | ok data =>
    simp only [hd] at h
    cases hm : p₀.Item.ChosenModel with
    | error e => simp [checkoutGetFields, hm] at h
    | ok m =>
      cases ha : p₀.Addr.ID with
      | error e => simp [checkoutGetFields, hm, ha] at h
      | ok addrId =>
        refine ⟨?_, ⟨m, rfl⟩, addrId, rfl⟩
        simp only [checkoutGetFields, hm, ha] at h
        revert h
        split
        · intro h; simp at h
        · split
          · intro h; simp at h
          · intro h
            simp at h
            exact h.symm

theorem deliveryAddress_nil_ID : (DeliveryAddress []).2.ID = .error .nilDereference := rfl

/-- The record `DeliveryAddress` returns when no address is flagged makes
`PlaceOrder` and `CheckoutGet` panic before a request is sent. -/
theorem checkout_zero_address_panics :
    PlaceOrder sampleClient
        { sampleParams 100000 20000 1650000000 with Addr := (DeliveryAddress []).2 } =
      { requests := [], result := .error .nilDereference } ∧
    (CheckoutGet sampleClient
        { sampleParams 100000 20000 0 with Addr := (DeliveryAddress []).2 }).requests = [] ∧
    (CheckoutGet sampleClient
        { sampleParams 100000 20000 0 with Addr := (DeliveryAddress []).2 }).result =
      .error .nilDereference :=
  ⟨rfl, rfl, rfl⟩

/-- C3.  Session ordering in `PlaceOrder`.  For every `CheckoutParams` whose
timestamp is zero, `PlaceOrder` returns the error "no timestamp in params"
without having sent a request, whatever the template and the transport are.
For every `CheckoutParams` whose timestamp is `T ≠ 0`, every request
`PlaceOrder` sends has the top-level `timestamp` field equal to `T`; and when
the parameters are those returned by a successful `CheckoutGet` and the
place-order template has the patched paths, `PlaceOrder` does build and send
one payload, with `timestamp = T`. -/
theorem placeOrder_session_ordering (c : Client) (params : CheckoutParams) :
    (params.ts = 0 →
      PlaceOrder c params =
        { requests := [], result := .ok (some (.new "no timestamp in params")) }) ∧
    (params.ts ≠ 0 →
      (∀ req ∈ (PlaceOrder c params).requests,
        readPath req.2 [.key "timestamp"] = some (.num params.ts)) ∧
      ∀ (p₀ : CheckoutParams) (data : List (String × Json)),
        (CheckoutGet c p₀).result = .ok (.ok params) →
        c.porderPayload = .ok data →
        (∀ p ∈ placeOrderPaths, validPath (.obj data) p = true) →
        ∃ body,
          (PlaceOrder c params).requests = [("/api/v4/checkout/place_order", body)] ∧
          readPath body [.key "timestamp"] = some (.num params.ts)) := by
  refine ⟨fun hts => ?_, fun hts => ⟨fun req hreq => ?_, fun p₀ data hget htmpl hfit => ?_⟩⟩
  · simp [PlaceOrder, hts]
  · exact (placeOrder_requests_timestamp c params req hreq).2
  · obtain ⟨hparams, ⟨m, hm⟩, addrId, haddr⟩ := checkoutGet_ok hget
    have hm' : params.Item.ChosenModel = .ok m := by
      rw [hparams]
      exact hm
    have haddr' : params.Addr.ID = .ok addrId := by
      rw [hparams]
      exact haddr
    obtain ⟨body, hreq, -⟩ := placeOrder_body hts htmpl hfit hm' haddr'
    refine ⟨body, hreq, ?_⟩
    exact (placeOrder_requests_timestamp c params ("/api/v4/checkout/place_order", body)
      (by rw [hreq]; exact List.mem_singleton.mpr rfl)).2

/-- Witness of `placeOrder_session_ordering`: on the sample client, parameters
without a timestamp are refused, and the parameters a successful `CheckoutGet`
returns lead to a payload carrying the clock reading `1650000000`. -/
theorem placeOrder_session_ordering_witness :
    (sampleParams 100000 20000 0).ts = 0 ∧
    PlaceOrder sampleClient (sampleParams 100000 20000 0) =
      { requests := [], result := .ok (some (.new "no timestamp in params")) } ∧
    (sampleParams 100000 20000 1650000000).ts ≠ 0 ∧
    (CheckoutGet sampleClient (sampleParams 100000 20000 0)).result =
      .ok (.ok (sampleParams 100000 20000 1650000000)) ∧
    (∀ p ∈ placeOrderPaths, validPath (.obj sampleOrderTemplate) p = true) ∧
    ∃ body,
      (PlaceOrder sampleClient (sampleParams 100000 20000 1650000000)).requests =
        [("/api/v4/checkout/place_order", body)] ∧
      readPath body [.key "timestamp"] = some (.num 1650000000) :=
  ⟨rfl,
   (placeOrder_session_ordering sampleClient (sampleParams 100000 20000 0)).1 rfl,
   by decide,
   rfl,
   by decide,
   ((placeOrder_session_ordering sampleClient (sampleParams 100000 20000 1650000000)).2
      (by decide)).2 (sampleParams 100000 20000 0) sampleOrderTemplate rfl rfl (by decide)⟩

/-- The loop stops at the first hit: started at `k`, it yields `k + i` when the
model at offset `i` is hit and none before it is. -/
theorem scanModels_first (hit : Model → Bool) (ms : List Model) (k i : Nat) (m : Model)
    (hm : ms[i]? = some m) (hhit : hit m = true)
    (hfirst : ∀ m' ∈ ms.take i, hit m' = false) :
    scanModels hit ms k = k + i := by
  induction ms generalizing k i with
  | nil => simp at hm
  | cons x rest ih =>
    cases i with
    | zero =>
      simp at hm
      subst hm
      simp [scanModels, hhit]
    | succ i =>
      have hx : hit x = false := hfirst x (by simp)
      simp only [List.getElem?_cons_succ] at hm
      have := ih (k + 1) i hm (fun m' hm' => hfirst m' (by simp [hm']))
      simp [scanModels, hx, this]
      omega

/-- Without a hit the loop leaves the zero value. -/
theorem scanModels_none (hit : Model → Bool) (ms : List Model) (k : Nat)
    (h : ∀ m ∈ ms, hit m = false) : scanModels hit ms k = 0 := by
  induction ms generalizing k with
  | nil => rfl
  | cons x rest ih =>
    have hx : hit x = false := h x (List.mem_cons_self _ _)
    simp [scanModels, hx, ih (k + 1) (fun m hm => h m (List.mem_cons_of_mem _ hm))]

/-- The loop yields zero or a position it has visited. -/
theorem scanModels_range (hit : Model → Bool) (ms : List Model) (k : Nat) :
    scanModels hit ms k = 0 ∨ (k ≤ scanModels hit ms k ∧ scanModels hit ms k < k + ms.length) := by
  induction ms generalizing k with
  | nil => exact Or.inl rfl
  | cons x rest ih =>
    by_cases hx : hit x = true
    · right
      simp [scanModels, hx]
    · rcases ih (k + 1) with h | h
      · left
        simp [scanModels, hx, h]
      · right
        simp only [scanModels, hx, List.length_cons]
        simp only [Bool.false_eq_true, if_false]
        omega

theorem scanModels_lt (hit : Model → Bool) (ms : List Model) (hne : ms ≠ []) :
    scanModels hit ms 0 < ms.length := by
  have hpos : 0 < ms.length := List.length_pos.mpr hne
  rcases scanModels_range hit ms 0 with h | h
  · rw [h]
    exact hpos
  · simpa using h.2

theorem chosenModel_ok_of_lt (c : CheckoutableItem) (h : c.chosenModel < c.Models.length) :
    ∃ m, c.ChosenModel = .ok m := by
  unfold CheckoutableItem.ChosenModel
  rw [List.getElem?_eq_getElem h]
  exact ⟨_, rfl⟩

/-! ## Joining labels -/

theorem intercalate_go_eq_foldl (acc sep : String) (rest : List String) :
    String.intercalate.go acc sep rest = rest.foldl (fun b t => b ++ sep ++ t) acc := by
  induction rest generalizing acc with
  | nil => rfl
  | cons t rest ih => simp [String.intercalate.go, ih]

/-- The model of `strings.Join` is the library's `intercalate`. -/
theorem stringsJoin_eq_intercalate (elems : List String) (sep : String) :
    stringsJoin elems sep = sep.intercalate elems := by
  cases elems with
  | nil => rfl
  | cons s rest => simp [stringsJoin, String.intercalate, intercalate_go_eq_foldl]

/-- The label loop stores, for each position, the option label the supplied
index selects on the axis of that position. -/
theorem tvarsNameFrom_ok (tvars : List TierVar) (indexes : List Int) (k : Nat)
    (labels : List String) (hlen : labels.length = indexes.length)
    (hbound : k + indexes.length ≤ tvars.length)
    (hopt : ∀ j t i, tvars[k + j]? = some t → indexes[j]? = some i →
      ∃ label, labels[j]? = some label ∧ index t.Options i = some label) :
    tvarsNameFrom tvars indexes k = .ok labels := by
  induction indexes generalizing k labels with
  | nil =>
    have : labels = [] := List.length_eq_zero.mp (by simpa using hlen)
    subst this
    rfl
  | cons i rest ih =>
    cases labels with
    | nil => simp at hlen
    | cons label labels =>
      have hk : k < tvars.length := by
        simp only [List.length_cons] at hbound
        omega
      have ht : tvars[k]? = some tvars[k] := List.getElem?_eq_getElem hk
      obtain ⟨label', hl', hidx⟩ := hopt 0 tvars[k] i (by simp [ht]) (by simp)
      simp at hl'
      subst hl'
      have hrest := ih (k + 1) labels (by simpa using hlen)
        (by simp only [List.length_cons] at hbound; omega)
        (fun j t i' htj hij => by
          have := hopt (j + 1) t i' (by rw [← htj]; congr 1; omega) (by simpa using hij)
          simpa using this)
      simp [tvarsNameFrom, ht, hidx, hrest, Except.map]

/-! ## Delivery address -/

theorem deliveryAddressFrom_first (a : List AddressInfo) (k : Int) (i : Nat) (addr : AddressInfo)
    (hi : a[i]? = some addr) (hflag : addr.IsDeliveryAddress = true)
    (hfirst : ∀ addr' ∈ a.take i, addr'.IsDeliveryAddress = false) :
    deliveryAddressFrom a k = (k + i, addr) := by
  induction a generalizing k i with
  | nil => simp at hi
  | cons x rest ih =>
    cases i with
    | zero =>
      simp at hi
      subst hi
      simp [deliveryAddressFrom, hflag]
    | succ i =>
      have hx : x.IsDeliveryAddress = false := hfirst x (by simp)
      simp only [List.getElem?_cons_succ] at hi
      have := ih (k + 1) i hi (fun addr' h' => hfirst addr' (by simp [h']))
      simp only [deliveryAddressFrom, hx, this]
      simp only [Bool.false_eq_true, if_false, Prod.mk.injEq, and_true]
      push_cast
      omega

theorem deliveryAddressFrom_none (a : List AddressInfo) (k : Int)
    (h : ∀ addr ∈ a, addr.IsDeliveryAddress = false) :
    (deliveryAddressFrom a k).1 = -1 := by
  induction a generalizing k with
  | nil => rfl
  | cons x rest ih =>
    have hx : x.IsDeliveryAddress = false := h x (List.mem_cons_self _ _)
    simp [deliveryAddressFrom, hx, ih (k + 1) (fun m hm => h m (List.mem_cons_of_mem _ hm))]

/-! ## The model resolver, shipping price and address lookup: claims -/

/-- C5.  Model-by-id resolution: for every `Item` and requested model id,
`ChooseModel` keeps the item and selects the index of the first model in the
item's model list whose model id equals the requested id, and selects index 0
when no model has that id. -/
theorem chooseModel_by_id (item : Item) (modelId : Int) :
    (ChooseModel item modelId).toItem = item ∧
    (∀ i m, item.Models[i]? = some m → m.ModelID = modelId →
      (∀ m' ∈ item.Models.take i, m'.ModelID ≠ modelId) →
      (ChooseModel item modelId).chosenModel = i) ∧
    ((∀ m ∈ item.Models, m.ModelID ≠ modelId) → (ChooseModel item modelId).chosenModel = 0) := by
  refine ⟨rfl, fun i m hm hid hfirst => ?_, fun hnone => ?_⟩
  · have := scanModels_first (fun m => decide (m.ModelID = modelId)) item.Models 0 i m hm
      (by simpa using hid) (fun m' hm' => by simpa using hfirst m' hm')
    simpa [ChooseModel] using this
  · exact scanModels_none _ _ 0 (fun m hm => by simpa using hnone m hm)

/-- Witness of `chooseModel_by_id`: with the model ids `[1, 2, 3]`, the id `2`
yields index 1 and the absent id `99` yields index 0. -/
theorem chooseModel_by_id_witness :
    (ChooseModel sampleIdItem 2).chosenModel = 1 ∧ (ChooseModel sampleIdItem 99).chosenModel = 0 :=
  ⟨(chooseModel_by_id sampleIdItem 2).2.1 1
      { ItemID := 22, Name := "b", Stock := 1, ModelID := 2, Price := 20 } rfl rfl (by decide),
   (chooseModel_by_id sampleIdItem 99).2.2 (by decide)⟩

/-- C6.  Model-by-axis resolution: for every `Item` and every index vector whose
length equals the number of tier-variation axes and whose entries are valid
option indices, with `labels` the option label at the supplied index on each
axis, in axis order, `ChooseModelByTierVar` returns the item with the index of
the first model whose name equals the comma-join of `labels`, and with index 0
when no model has that name. -/
theorem chooseModelByTierVar_by_axis (item : Item) (indexes : List Int) (labels : List String)
    (hlen : indexes.length = item.TierVariations.length)
    (hlabels : labels.length = item.TierVariations.length)
    (hopt : ∀ (k : Nat) (t : TierVar) (i : Int),
      item.TierVariations[k]? = some t → indexes[k]? = some i →
      (0 ≤ i ∧ i < t.Options.length) ∧ labels[k]? = t.Options[i.toNat]?) :
    ∃ c, ChooseModelByTierVar item indexes = .ok c ∧ c.toItem = item ∧
      (∀ n m, item.Models[n]? = some m → m.Name = ",".intercalate labels →
        (∀ m' ∈ item.Models.take n, m'.Name ≠ ",".intercalate labels) →
        c.chosenModel = n) ∧
      ((∀ m ∈ item.Models, m.Name ≠ ",".intercalate labels) → c.chosenModel = 0) := by
  have hnames : tvarsNameFrom item.TierVariations indexes 0 = .ok labels := by
    apply tvarsNameFrom_ok _ _ _ _ (by rw [hlabels, hlen]) (by omega)
    intro j t i ht hi
    obtain ⟨hrange, hlab⟩ := hopt j t i (by simpa using ht) hi
    have hlt : i.toNat < t.Options.length := by omega
    refine ⟨t.Options[i.toNat], ?_, ?_⟩
    · rw [hlab, List.getElem?_eq_getElem hlt]
    · have hneg : ¬ i < 0 := by omega
      simp [index, hneg, List.getElem?_eq_getElem hlt]
  refine ⟨{ toItem := item,
             chosenModel := scanModels (fun m => decide (m.Name = stringsJoin labels ","))
               item.Models 0 },
    ?_, rfl, fun n m hm hname hfirst => ?_, fun hnone => ?_⟩
  · simp only [ChooseModelByTierVar, hlen, ne_eq, not_true_eq_false, if_false, hnames]
  · have := scanModels_first (fun m => decide (m.Name = stringsJoin labels ",")) item.Models 0 n m
      hm (by simpa [stringsJoin_eq_intercalate] using hname)
      (fun m' hm' => by simpa [stringsJoin_eq_intercalate] using hfirst m' hm')
    simpa using this
  · exact scanModels_none _ _ 0
      (fun m hm => by simpa [stringsJoin_eq_intercalate] using hnone m hm)

/-- Witness of `chooseModelByTierVar_by_axis`: with the axes
`Color = [Red, Blue]`, `Size = [S, M]`, the models `"Red,S"`, `"Red,M"`,
`"Blue,S"`, `"Blue,M"` and the indices `[1, 0]`, the model chosen is the one
named `"Blue,S"`, at index 2. -/
theorem chooseModelByTierVar_by_axis_witness :
    ∃ c, ChooseModelByTierVar sampleAxisItem [1, 0] = .ok c ∧ c.chosenModel = 2 ∧
      c.ChosenModel =
        .ok { ItemID := 22, Name := "Blue,S", Stock := 1, ModelID := 3, Price := 10 } := by
  obtain ⟨c, hc, hitem, hfirst, -⟩ :=
    chooseModelByTierVar_by_axis sampleAxisItem [1, 0] ["Blue", "S"] rfl rfl (by
      intro k t i ht hi
      rcases k with _ | _ | k
      · simp [sampleAxisItem] at ht hi
        subst ht hi
        decide
      · simp [sampleAxisItem] at ht hi
        subst ht hi
        decide
      · simp [sampleAxisItem] at ht)
  have h2 := hfirst 2 { ItemID := 22, Name := "Blue,S", Stock := 1, ModelID := 3, Price := 10 }
    rfl (by decide) (by decide)
  refine ⟨c, hc, h2, ?_⟩
  obtain ⟨item, chosen⟩ := c
  simp only at hitem h2
  subst hitem h2
  rfl

/-- C7 (as amended).  Index validity: for every `Item` that has at least one
model and every caller selection, the `CheckoutableItem` produced by
`ChooseModel` or by `ChooseModelByTierVar` holds an index below the length of
the item's model list, and `ChosenModel` on it returns a model. -/
theorem chosenModel_in_range (item : Item) (hne : item.Models ≠ []) :
    (∀ modelId : Int,
      (ChooseModel item modelId).chosenModel < (ChooseModel item modelId).Models.length ∧
      ∃ m, (ChooseModel item modelId).ChosenModel = .ok m) ∧
    (∀ (indexes : List Int) (c : CheckoutableItem),
      ChooseModelByTierVar item indexes = .ok c →
      c.chosenModel < c.Models.length ∧ ∃ m, c.ChosenModel = .ok m) := by
  constructor
  · intro modelId
    have h : (ChooseModel item modelId).chosenModel < (ChooseModel item modelId).Models.length :=
      scanModels_lt _ _ hne
    exact ⟨h, chosenModel_ok_of_lt _ h⟩
  · intro indexes c hc
    unfold ChooseModelByTierVar at hc
    by_cases hlen : indexes.length ≠ item.TierVariations.length
    · simp [hlen] at hc
    · rw [if_neg hlen] at hc
      cases hn : tvarsNameFrom item.TierVariations indexes 0 with
      | error e => simp [hn] at hc
      | ok names =>
        simp only [hn, Except.ok.injEq] at hc
        subst hc
        have h : scanModels (fun m => decide (m.Name = stringsJoin names ",")) item.Models 0
            < item.Models.length := scanModels_lt _ _ hne
        exact ⟨h, chosenModel_ok_of_lt _ h⟩

/-- Witness of `chosenModel_in_range`: the item with the model ids `[1, 2, 3]`
and the absent id `99`. -/
theorem chosenModel_in_range_witness :
    sampleIdItem.Models ≠ [] ∧
    (ChooseModel sampleIdItem 99).chosenModel < (ChooseModel sampleIdItem 99).Models.length ∧
    ∃ m, (ChooseModel sampleIdItem 99).ChosenModel = .ok m :=
  ⟨by decide, (chosenModel_in_range sampleIdItem (by decide)).1 99⟩

/-- C7 as stated fails.  For an item whose model list is empty both resolvers
produce the index 0, which references no model: `0 < len(Models())` is false
and `ChosenModel` panics with an index out of range. -/
theorem chosenModel_in_range_counterexample :
    (ChooseModel sampleBareItem 1).chosenModel = 0 ∧
    (ChooseModel sampleBareItem 1).Models.length = 0 ∧
    (ChooseModel sampleBareItem 1).ChosenModel = .error .indexOutOfRange ∧
    ChooseModelByTierVar sampleBareItem [] =
      .ok { toItem := sampleBareItem, chosenModel := 0 } ∧
    CheckoutableItem.ChosenModel { toItem := sampleBareItem, chosenModel := 0 } =
      .error .indexOutOfRange :=
  ⟨rfl, rfl, rfl, rfl, rfl⟩

/-- C9.  Effective shipping price: for every logistics channel, `PriceMax` is
the larger of its `max_price` and its `price_before_discount`: it is at least
both and equal to one of them.  In particular `max_price = 500`,
`price_before_discount = 700` yields `700`, and `max_price = 900`,
`price_before_discount = 300` yields `900`. -/
theorem priceMax_is_larger (c : LogisticChannelInfo) :
    (c.MaxPrice ≤ c.PriceMax ∧ c.PriceBeforeDiscount ≤ c.PriceMax ∧
      (c.PriceMax = c.MaxPrice ∨ c.PriceMax = c.PriceBeforeDiscount)) ∧
    LogisticChannelInfo.PriceMax { c with MaxPrice := 500, PriceBeforeDiscount := 700 } = 700 ∧
    LogisticChannelInfo.PriceMax { c with MaxPrice := 900, PriceBeforeDiscount := 300 } = 900 := by
  refine ⟨?_, rfl, rfl⟩
  unfold LogisticChannelInfo.PriceMax max
  by_cases h : c.PriceBeforeDiscount > c.MaxPrice
  · rw [if_pos h]
    exact ⟨le_of_lt h, le_refl _, Or.inr rfl⟩
  · rw [if_neg h]
    exact ⟨le_refl _, not_lt.mp h, Or.inl rfl⟩

/-- C10.  Delivery-address lookup: for every `Addresses` collection in which
exactly one member has the delivery flag set, `DeliveryAddress` returns that
member's index together with that member's record; for every collection in
which no member is flagged, the empty one included, it returns index `-1`. -/
theorem deliveryAddress_lookup (a : Addresses) :
    (∀ (i : Nat) (addr : AddressInfo), a[i]? = some addr → addr.IsDeliveryAddress = true →
      (∀ (j : Nat) (addr' : AddressInfo),
        a[j]? = some addr' → addr'.IsDeliveryAddress = true → j = i) →
      DeliveryAddress a = ((i : Int), addr)) ∧
    ((∀ addr ∈ a, addr.IsDeliveryAddress = false) → (DeliveryAddress a).1 = -1) ∧
    (DeliveryAddress []).1 = -1 := by
  refine ⟨fun i addr hi hflag huniq => ?_, fun hnone => deliveryAddressFrom_none a 0 hnone, rfl⟩
  have hfirst : ∀ addr' ∈ a.take i, addr'.IsDeliveryAddress = false := by
    intro addr' hmem
    obtain ⟨j, hj, rfl⟩ := List.getElem_of_mem hmem
    rw [List.length_take] at hj
    by_contra hne
    have hj' : j < a.length := by omega
    have := huniq j (a.take i)[j] (by rw [List.getElem_take]; exact List.getElem?_eq_getElem hj')
      (by simpa using hne)
    omega
  have := deliveryAddressFrom_first a 0 i addr hi hflag hfirst
  simpa [DeliveryAddress] using this

/-- Witness of `deliveryAddress_lookup`: of three addresses the second is the
delivery address; a list without a flagged member gives `-1`. -/
theorem deliveryAddress_lookup_witness :
    DeliveryAddress sampleAddresses = (1, { json := some { id := 8 }, isDeliveryAddr := true }) ∧
    (DeliveryAddress [{ json := some { id := 7 }, isDeliveryAddr := false }]).1 = -1 :=
  ⟨(deliveryAddress_lookup sampleAddresses).1 1 { json := some { id := 8 }, isDeliveryAddr := true } rfl rfl
      (by
        intro j addr' hj hflag
        rcases j with _ | _ | _ | j <;> simp [sampleAddresses] at hj <;>
          first
            | rfl
            | (subst hj
               simp [AddressInfo.IsDeliveryAddress] at hflag)),
   (deliveryAddress_lookup [{ json := some { id := 7 }, isDeliveryAddr := false }]).2.1 (by decide)⟩

/-! ## Independence of patches -/

theorem nodeKind_putChild (d : Json) (a : Accessor) (c : Json) :
    nodeKind (putChild d a c) = nodeKind d := by
  cases d <;> cases a <;> simp [putChild, nodeKind]

/-- A write keeps the kind of the root. -/
theorem set_nodeKind {d d' : Json} {p : List Accessor} {v : Json}
    (h : setJsonField d p v = .ok d') : nodeKind d' = nodeKind d := by
  cases p with
  | nil => simp [setJsonField] at h
  | cons a rest =>
    cases rest with
    | nil =>
      rcases set_last_ok h with ⟨-, rfl⟩ | rfl
      · exact nodeKind_putChild _ _ _
      · rfl
    | cons b rest =>
      rcases set_cons_ok h with ⟨c, c', -, -, rfl⟩ | rfl
      · exact nodeKind_putChild _ _ _
      · rfl

/-- A write changes the kind of the node at a path only if the written path
is a prefix of it. -/
theorem set_frame_kind {d d' : Json} {p r : List Accessor} {v : Json}
    (h : setJsonField d p v = .ok d') (hr : ¬ p <+: r) :
    (readPath d' r).map nodeKind = (readPath d r).map nodeKind := by
  induction p generalizing d d' r with
  | nil => exact absurd (List.nil_prefix) hr
  | cons a rest ih =>
    cases r with
    | nil => simp [readPath, set_nodeKind h]
    | cons b r =>
      cases rest with
      | nil =>
        have hne : b ≠ a := by
          intro hba
          apply hr
          rw [hba]
          exact List.prefix_iff_eq_append.mpr (by simp)
        rcases set_last_ok h with ⟨hw, rfl⟩ | rfl
        · simp [readPath, child_putChild _ _ _ _ hw, hne]
        · rfl
      | cons a₂ rest =>
        rcases set_cons_ok h with ⟨c, c', hc, hset, rfl⟩ | rfl
        · rw [readPath_cons, readPath_cons, child_putChild _ _ _ _ (writable_of_child hc)]
          by_cases hba : b = a
          · subst hba
            have hr' : ¬ (a₂ :: rest) <+: r := by
              intro hpre
              exact hr (List.cons_prefix_cons.mpr ⟨rfl, hpre⟩)
            simp [hc, ih hset hr']
          · simp [hba]
        · rfl

theorem readPath_append (d : Json) (p s : List Accessor) :
    readPath d (p ++ s) = (readPath d p).bind (fun c => readPath c s) := by
  induction p generalizing d with
  | nil => simp [readPath]
  | cons a rest ih =>
    simp only [List.cons_append, readPath_cons]
    cases child d a with
    | none => rfl
    | some c => simpa [readPath] using ih c

/-- After a write along a path that fits, the paths below the written one read
inside the written value. -/
theorem set_read_below {d d' : Json} {p : List Accessor} {v : Json}
    (hfit : validPath d p = true) (h : setJsonField d p v = .ok d') (s : List Accessor) :
    readPath d' (p ++ s) = readPath v s := by
  obtain ⟨d'', hset, hread⟩ := set_read v hfit
  rw [h] at hset
  cases hset
  simp [readPath_append, hread]

theorem overlap_append_of_not_overlap {p q : List Accessor} (h : overlap p q = false)
    (s : List Accessor) : overlap q (p ++ s) = false := by
  by_contra hc
  have hc' : overlap q (p ++ s) = true := by simpa using hc
  have hpq : ¬ (p <+: q ∨ q <+: p) := by
    rw [← overlap_iff_comparable, h]
    simp
  rcases (overlap_iff_comparable _ _).mp hc' with hq | hq
  · rcases List.prefix_or_prefix_of_prefix hq (List.prefix_append p s) with h' | h'
    · exact hpq (Or.inr h')
    · exact hpq (Or.inl h')
  · exact hpq (Or.inl ((List.prefix_append p s).trans hq))

/-- Two writes along paths that fit the document and do not overlap give the
same document in either order. -/
theorem set_comm {d : Json} {p q : List Accessor} (v w : Json)
    (hp : validPath d p = true) (hq : validPath d q = true) (hpq : overlap p q = false) :
    ∃ d₁₂ d₂₁, applyPatches d [(p, v), (q, w)] = .ok d₁₂ ∧
      applyPatches d [(q, w), (p, v)] = .ok d₂₁ ∧ sameDocument d₁₂ d₂₁ := by
  have hqp : overlap q p = false := by rw [overlap_comm]; exact hpq
  obtain ⟨d₁, hset₁, -⟩ := set_read v hp
  obtain ⟨d₂, hset₂, -⟩ := set_read w hq
  have hq₁ : validPath d₁ q = true := by rw [set_frame_valid hset₁ hpq]; exact hq
  have hp₂ : validPath d₂ p = true := by rw [set_frame_valid hset₂ hqp]; exact hp
  obtain ⟨d₁₂, hset₁₂, -⟩ := set_read w hq₁
  obtain ⟨d₂₁, hset₂₁, -⟩ := set_read v hp₂
  refine ⟨d₁₂, d₂₁, by simp [applyPatches, hset₁, hset₁₂], by simp [applyPatches, hset₂, hset₂₁], ?_⟩
  intro r
  by_cases hpr : p <+: r
  · obtain ⟨s, rfl⟩ := hpr
    rw [set_frame_read hset₁₂ (overlap_append_of_not_overlap hpq s),
      set_read_below hp hset₁ s, set_read_below hp₂ hset₂₁ s]
  · by_cases hqr : q <+: r
    · obtain ⟨s, rfl⟩ := hqr
      rw [set_frame_read hset₂₁ (overlap_append_of_not_overlap hqp s),
        set_read_below hq hset₂ s, set_read_below hq₁ hset₁₂ s]
    · rw [set_frame_kind hset₁₂ hqr, set_frame_kind hset₁ hpr,
        set_frame_kind hset₂₁ hpr, set_frame_kind hset₂ hqr]

theorem sameDocument_refl (d : Json) : sameDocument d d := fun _ => rfl

theorem sameDocument_symm {d₁ d₂ : Json} (h : sameDocument d₁ d₂) : sameDocument d₂ d₁ :=
  fun r => (h r).symm

theorem sameDocument_trans {d₁ d₂ d₃ : Json} (h₁ : sameDocument d₁ d₂)
    (h₂ : sameDocument d₂ d₃) : sameDocument d₁ d₃ :=
  fun r => (h₁ r).trans (h₂ r)

/-- The same documents have roots of the same kind; two leaves are the same
document only if they are equal. -/
theorem sameDocument_nodeKind {d₁ d₂ : Json} (h : sameDocument d₁ d₂) :
    nodeKind d₁ = nodeKind d₂ := by
  simpa [readPath] using h []

/-- The same documents hold the same documents at every path: both hold
nothing there, or both hold something and the two parts are again the same. -/
theorem sameDocument_read {d₁ d₂ : Json} (h : sameDocument d₁ d₂) (r : List Accessor) :
    ((readPath d₁ r).isSome = (readPath d₂ r).isSome) ∧
    ∀ x y, readPath d₁ r = some x → readPath d₂ r = some y → sameDocument x y := by
  constructor
  · have := congrArg Option.isSome (h r)
    simpa using this
  · intro x y hx hy s
    have := h (r ++ s)
    simpa [readPath_append, hx, hy] using this

/-- C11.  Patches are independent.  For every document and every patch
`(path, value)` whose path fits the document, `setJsonField` succeeds, and the
value read at every other path that neither is a prefix of the patched path
nor extends it is the same after the patch as before; and a second patch whose
path fits the document and neither is a prefix of the first path nor extends
it can be applied before or after the first, both orders succeeding with the
same document. -/
theorem patches_independent (doc : Json) (path : List Accessor) (value : Json)
    (hfit : validPath doc path = true) :
    ∃ doc₁, setJsonField doc path value = .ok doc₁ ∧
      (∀ q : List Accessor, ¬ q <+: path → ¬ path <+: q → readPath doc₁ q = readPath doc q) ∧
      (∀ (q : List Accessor) (w : Json), validPath doc q = true →
        ¬ q <+: path → ¬ path <+: q →
        ∃ d₁₂ d₂₁, applyPatches doc [(path, value), (q, w)] = .ok d₁₂ ∧
          applyPatches doc [(q, w), (path, value)] = .ok d₂₁ ∧ sameDocument d₁₂ d₂₁) := by
  have hov : ∀ q : List Accessor, ¬ q <+: path → ¬ path <+: q → overlap path q = false := by
    intro q h₁ h₂
    cases ho : overlap path q with
    | false => rfl
    | true =>
      rcases (overlap_iff_comparable _ _).mp ho with h | h
      · exact absurd h h₂
      · exact absurd h h₁
  obtain ⟨doc₁, hset, -⟩ := set_read value hfit
  refine ⟨doc₁, hset, fun q h₁ h₂ => set_frame_read hset (hov q h₁ h₂), ?_⟩
  intro q w hq h₁ h₂
  exact set_comm value w hfit hq (hov q h₁ h₂)

/-- Witness of `patches_independent`: two totals stored under new keys of the
same map; a path elsewhere reads as before, and the two orders give the same
document. -/
theorem patches_independent_witness :
    validPath (.obj [("timestamp", .num 7), ("checkout_price_data", .obj [])])
      [.key "checkout_price_data", .key "total_payable"] = true ∧
    validPath (.obj [("timestamp", .num 7), ("checkout_price_data", .obj [])])
      [.key "checkout_price_data", .key "shipping_subtotal"] = true ∧
    ∃ doc₁,
      setJsonField (.obj [("timestamp", .num 7), ("checkout_price_data", .obj [])])
        [.key "checkout_price_data", .key "total_payable"] (.num 120) = .ok doc₁ ∧
      readPath doc₁ [.key "timestamp"] = some (.num 7) ∧
      ∃ d₁₂ d₂₁,
        applyPatches (.obj [("timestamp", .num 7), ("checkout_price_data", .obj [])])
          [([.key "checkout_price_data", .key "total_payable"], .num 120),
           ([.key "checkout_price_data", .key "shipping_subtotal"], .num 20)] = .ok d₁₂ ∧
        applyPatches (.obj [("timestamp", .num 7), ("checkout_price_data", .obj [])])
          [([.key "checkout_price_data", .key "shipping_subtotal"], .num 20),
           ([.key "checkout_price_data", .key "total_payable"], .num 120)] = .ok d₂₁ ∧
        sameDocument d₁₂ d₂₁ := by
  obtain ⟨doc₁, hset, hframe, hcomm⟩ :=
    patches_independent (.obj [("timestamp", .num 7), ("checkout_price_data", .obj [])])
      [.key "checkout_price_data", .key "total_payable"] (.num 120) (by decide)
  exact ⟨by decide, by decide, doc₁, hset,
    (hframe [.key "timestamp"] (by decide) (by decide)).trans rfl,
    hcomm [.key "checkout_price_data", .key "shipping_subtotal"] (.num 20) (by decide)
      (by decide) (by decide)⟩

end Shopee
